import Mathlib

/-!
Shallow embedding of the room state machine of the cooperative card-game
server (`src/server/index.js`) together with proofs about its invariants and
event handlers.

Conventions of the embedding:
* JS objects used as token-keyed maps (`game.players`, `game.playedThisTurn`,
  `game.start.made`, `game.start.pref`, `game.pilePings`) are modelled as
  association lists in insertion order, with `findKeyA` / `setKeyA` mirroring
  property read and property write (update in place, or append when absent).
* The deck is a `List Int` kept in pop order: the head of the list is the next
  card drawn (`deck.pop()` in JS removes the tail end of the array; the model
  stores the array reversed so that drawing is head consumption).
* `Math.random()`-driven choices (deck shuffle, starter pick) are parameters:
  the shuffled deck is an arbitrary permutation of 2..99, the starter pick an
  arbitrary natural taken modulo the pool size.
* Redis stats records are a total map `String → Stats` defaulting to zeroes,
  matching `getStats`.
* Handlers return the (possibly unchanged) room plus an optional error; in the
  source every error return happens before any mutation, which the embedding
  reflects by returning the input room alongside the error.
-/

namespace TheGame

/-- Room lifecycle status, mirroring the status strings of the server. -/
inductive Status where
  | waiting
  | choosing_start
  | playing
  | win
  | lose
deriving DecidableEq

/-- The four fixed pile identifiers (keys of `game.piles`). -/
inductive PileId where
  | up1
  | up2
  | down1
  | down2
deriving DecidableEq

/-- Whether the pile name starts with "up" (`pileName.startsWith("up")`). -/
def PileId.isUp : PileId → Bool
  | .up1 => true
  | .up2 => true
  | .down1 => false
  | .down2 => false

/-- The check `pile in game.piles` of the play handler: only the four fixed
pile names are keys of `game.piles`. -/
def parsePile (s : String) : Option PileId :=
  if s = "up1" then some .up1
  else if s = "up2" then some .up2
  else if s = "down1" then some .down1
  else if s = "down2" then some .down2
  else none

/-- The four pile top values (`game.piles`). -/
structure Piles where
  up1 : Int
  up2 : Int
  down1 : Int
  down2 : Int
deriving DecidableEq

/-- Read `game.piles[pile]`. -/
def Piles.value (P : Piles) : PileId → Int
  | .up1 => P.up1
  | .up2 => P.up2
  | .down1 => P.down1
  | .down2 => P.down2

/-- Write `game.piles[pile] = v`. -/
def Piles.write (P : Piles) : PileId → Int → Piles
  | .up1, v => { P with up1 := v }
  | .up2, v => { P with up2 := v }
  | .down1, v => { P with down1 := v }
  | .down2, v => { P with down2 := v }

/-- A seated player record (`game.players[token]`). -/
structure Player where
  name : String
  hand : List Int
  connected : Bool
  socketId : Option String
deriving DecidableEq

/-- A pile ping record (`game.pilePings[pile] = { type, ts }`). -/
structure PingInfo where
  ty : String
  ts : Int
deriving DecidableEq

/-- A start-preference vote value ("can" / "not"). -/
inductive StartChoice where
  | can
  | not
deriving DecidableEq

/-- The start-vote state (`game.start`). -/
structure StartState where
  made : List (String × Bool)
  pref : List (String × StartChoice)
deriving DecidableEq

/-- The persisted room record. -/
structure Game where
  room : String
  maxPlayers : Nat
  status : Status
  createdAt : Int
  deck : List Int
  piles : Piles
  players : List (String × Player)
  turnToken : Option String
  playedThisTurn : List (String × Nat)
  pilePings : List (PileId × PingInfo)
  start : Option StartState
deriving DecidableEq

/-- Property read on a JS object modelled as an association list. -/
def findKeyA {α β : Type} [DecidableEq α] : List (α × β) → α → Option β
  | [], _ => none
  | (k, v) :: r, a => if k = a then some v else findKeyA r a

/-- Property write on a JS object modelled as an association list: update in
place when the key exists, append otherwise. -/
def setKeyA {α β : Type} [DecidableEq α] : List (α × β) → α → β → List (α × β)
  | [], a, b => [(a, b)]
  | (k, v) :: r, a, b => if k = a then (a, b) :: r else (k, v) :: setKeyA r a b

/-- `Object.keys(game.players)` in insertion order. -/
def tokensOf (g : Game) : List String := g.players.map Prod.fst

/-- `game.players?.[token]?.hand || []`. -/
def handOf (g : Game) (t : String) : List Int :=
  ((findKeyA g.players t).map Player.hand).getD []

/-- `game.players[t]?.connected` read as a boolean. -/
def connectedOf (g : Game) (t : String) : Bool :=
  ((findKeyA g.players t).map Player.connected).getD false

/-- `game.playedThisTurn?.[token] || 0`. -/
def playedOf (g : Game) (t : String) : Nat :=
  (findKeyA g.playedThisTurn t).getD 0

/-- `HAND_SIZE`. -/
def HAND_SIZE : Nat := 6

/-- The 98 card values 2..99 built by `newShuffledDeck` before shuffling. -/
def stdDeckInt : List Int := (List.range 98).map (fun n => (n : Int) + 2)

/-- `canPlayOnPile(card, pileName, pileValue)`. -/
def canPlayOnPile (card : Int) (pid : PileId) (pileValue : Int) : Bool :=
  if pid.isUp then decide (card > pileValue) || decide (card = pileValue - 10)
  else decide (card < pileValue) || decide (card = pileValue + 10)

/-- `Object.keys(game.piles)` in insertion order. -/
def pileList : List PileId := [.up1, .up2, .down1, .down2]

/-- `anyLegalMoveForToken(game, token)`. -/
def anyLegalMoveForToken (g : Game) (t : String) : Bool :=
  (handOf g t).any (fun c => pileList.any (fun pid => canPlayOnPile c pid (g.piles.value pid)))

/-- `anyLegalMoveForAnyone(game)`: some connected player has a legal move. -/
def anyLegalMoveForAnyone (g : Game) : Bool :=
  (tokensOf g).any (fun t => connectedOf g t && anyLegalMoveForToken g t)

/-- `minPlaysThisTurn(game)`: 1 once the deck is empty, else 2. -/
def minPlaysThisTurn (g : Game) : Nat := if g.deck.length = 0 then 1 else 2

/-- `tokens.indexOf(current)` as an option (JS yields -1 when absent). -/
def tokenIndex : List String → String → Option Nat
  | [], _ => none
  | h :: r, t => if h = t then some 0 else (tokenIndex r t).map (· + 1)

/-- The scan `for (k = 1; k <= tokens.length; k++)` of `nextConnectedToken`:
`k` is the current offset, the last argument the number of offsets left. -/
def searchConnected (ps : List (String × Player)) (tokens : List String) (idx : Int) :
    Nat → Nat → Option String
  | _, 0 => none
  | k, Nat.succ n =>
    let cand := tokens.getD (((idx + (k : Int)) % (tokens.length : Int)).toNat) ""
    if ((findKeyA ps cand).map Player.connected).getD false then some cand
    else searchConnected ps tokens idx (k + 1) n

/-- `nextConnectedToken(game, currentToken)`. -/
def nextConnectedToken (g : Game) (current : String) : Option String :=
  let tokens := tokensOf g
  if tokens.length = 0 then none
  else
    let idx : Int := match tokenIndex tokens current with
      | some i => (i : Int)
      | none => -1
    match searchConnected g.players tokens idx 1 tokens.length with
    | some t => some t
    | none => some (tokens.getD (((idx + 1) % (tokens.length : Int)).toNat) "")

/-- A per-token stats record (`thegame:stats:` redis value). -/
structure Stats where
  games : Nat
  wins : Nat
  losses : Nat
deriving DecidableEq

/-- The whole stats store; `getStats` defaults missing entries to zeroes. -/
abbrev StatsMap := String → Stats

/-- `setStats(token, stats)`. -/
def statSet (m : StatsMap) (t : String) (s : Stats) : StatsMap :=
  fun u => if u = t then s else m u

/-- The per-token stats update loop of `checkWinLoseAndPersist`. -/
def bumpAll (f : Stats → Stats) (ts : List String) (m : StatsMap) : StatsMap :=
  ts.foldl (fun acc t => statSet acc t (f (acc t))) m

/-- `s.games += 1; s.wins += 1`. -/
def winBump (s : Stats) : Stats :=
  { games := s.games + 1, wins := s.wins + 1, losses := s.losses }

/-- `s.games += 1; s.losses += 1`. -/
def loseBump (s : Stats) : Stats :=
  { games := s.games + 1, wins := s.wins, losses := s.losses + 1 }

/-- `Object.values(game.players).every(p => (p.hand || []).length === 0)`. -/
def handsEmptyB (g : Game) : Bool := g.players.all (fun q => q.2.hand.isEmpty)

/-- `checkWinLoseAndPersist(game)` acting on the room record and the stats
store. -/
def checkWinLose (g : Game) (m : StatsMap) : Game × StatsMap :=
  if g.deck.isEmpty && handsEmptyB g then
    if g.status ≠ Status.win then
      ({ g with status := Status.win }, bumpAll winBump (tokensOf g) m)
    else (g, m)
  else
    if (!handsEmptyB g || !g.deck.isEmpty) && !(anyLegalMoveForAnyone g) then
      if g.status ≠ Status.lose then
        ({ g with status := Status.lose }, bumpAll loseBump (tokensOf g) m)
      else (g, m)
    else (g, m)

/-- The dealing loop of `startChoosingIfReady`: each seated player in order
gets up to `HAND_SIZE` cards popped from the shared deck. -/
def dealHands : List (String × Player) → List Int → List (String × Player) × List Int
  | [], d => ([], d)
  | (t, p) :: r, d =>
    let res := dealHands r (d.drop HAND_SIZE)
    ((t, { p with hand := d.take HAND_SIZE }) :: res.1, res.2)

/-- `startChoosingIfReady(game)`, with the freshly shuffled deck supplied as a
parameter (pop order). -/
def startChoosingIfReady (g : Game) (shuffled : List Int) : Game :=
  if g.status ≠ Status.waiting then g
  else if (tokensOf g).length < g.maxPlayers then g
  else
    let res := dealHands g.players shuffled
    { g with
      deck := res.2
      piles := ⟨1, 1, 100, 100⟩
      turnToken := none
      playedThisTurn := []
      pilePings := []
      start := some ⟨[], []⟩
      players := res.1
      status := Status.choosing_start }

/-- `decideStarterIfAllMade(game)`, with the random pool index supplied as a
parameter taken modulo the pool size. -/
def decideStarterIfAllMade (g : Game) (r : Nat) : Game :=
  if g.status ≠ Status.choosing_start then g
  else
    let tokens := tokensOf g
    let made := (g.start.map StartState.made).getD []
    let madeCount := (tokens.filter (fun t => (findKeyA made t).getD false)).length
    if madeCount < tokens.length then g
    else
      let can := tokens.filter
        (fun t => decide (findKeyA ((g.start.map StartState.pref).getD []) t = some StartChoice.can))
      let pool := if 0 < can.length then can else tokens
      match pool.get? (r % pool.length) with
      | some starter =>
        { g with status := Status.playing, turnToken := some starter, playedThisTurn := [] }
      | none =>
        { g with status := Status.playing, turnToken := none, playedThisTurn := [] }

/-- The `startPref` event handler body (after the room was loaded). -/
def startPrefRun (g : Game) (token pref : String) (r : Nat) : Game :=
  if token = "" then g
  else if g.status ≠ Status.choosing_start then g
  else
    let st := g.start.getD ⟨[], []⟩
    let st' : StartState :=
      { made := setKeyA st.made token true
        pref := setKeyA st.pref token
          (if pref = "can" then StartChoice.can else StartChoice.not) }
    decideStarterIfAllMade { g with start := some st' } r

/-- The clamp `Math.max(2, Math.min(4, parseInt(maxPlayers || "2", 10)))` of
the create handler. -/
def clampMP (n : Int) : Nat := (max 2 (min 4 n)).toNat

/-- The fresh room built by `createRoom` when the code is unused. -/
def initGame (room : String) (mp : Nat) (ts : Int) : Game :=
  { room := room
    maxPlayers := mp
    status := Status.waiting
    createdAt := ts
    deck := []
    piles := ⟨1, 1, 100, 100⟩
    players := []
    turnToken := none
    playedThisTurn := []
    pilePings := []
    start := none }

/-- The existing-room branch of `createRoom`: `maxPlayers` is overwritten only
while the room still waits, otherwise nothing changes. -/
def createOnExisting (g : Game) (mp : Nat) : Game :=
  if g.status = Status.waiting then { g with maxPlayers := mp } else g

/-- The error events a handler can emit (`errorMsg`/guard outcomes that matter
to the state machine). -/
inductive Err where
  | full
  | notYourTurn
  | unknownPlayer
  | cardNotInHand
  | invalidPile
  | illegalMove
  | mustPlayMore (n : Nat)
deriving DecidableEq

/-- The `join` event handler body (after the room was loaded), with the deck a
potential `startChoosingIfReady` would shuffle supplied as a parameter. -/
def joinRun (g : Game) (token name sid : String) (shuffled : List Int) : Game × Option Err :=
  if token = "" then (g, none)
  else
    let isKnown := (findKeyA g.players token).isSome
    if isKnown = false ∧ g.maxPlayers ≤ (tokensOf g).length then (g, some Err.full)
    else
      let g' :=
        match findKeyA g.players token with
        | none =>
          let fresh : Player :=
            { name := name, hand := [], connected := true, socketId := some sid }
          { g with players := setKeyA g.players token fresh }
        | some p =>
          let back : Player :=
            { p with
                name := if name = "" then p.name else name
                connected := true
                socketId := some sid }
          { g with players := setKeyA g.players token back }
      (startChoosingIfReady g' shuffled, none)

/-- The mutation block of the `play` handler: put the card on the pile, remove
it from the hand, bump the per-turn counter. -/
def playApply (g : Game) (p : Player) (token : String) (card : Int) (pid : PileId) : Game :=
  let p' : Player := { p with hand := p.hand.filter (fun x => decide (x ≠ card)) }
  { g with
    piles := g.piles.write pid card
    players := setKeyA g.players token p'
    playedThisTurn := setKeyA g.playedThisTurn token (playedOf g token + 1) }

/-- The `play` event handler body (after the room was loaded). -/
def playRun (g : Game) (m : StatsMap) (token : String) (card : Int) (pileStr : String) :
    Game × StatsMap × Option Err :=
  if token = "" then (g, m, none)
  else if g.status ≠ Status.playing then (g, m, none)
  else if g.turnToken ≠ some token then (g, m, some Err.notYourTurn)
  else
    match findKeyA g.players token with
    | none => (g, m, some Err.unknownPlayer)
    | some p =>
      if card ∉ p.hand then (g, m, some Err.cardNotInHand)
      else
        match parsePile pileStr with
        | none => (g, m, some Err.invalidPile)
        | some pid =>
          if canPlayOnPile card pid (g.piles.value pid) = false then (g, m, some Err.illegalMove)
          else
            let res := checkWinLose (playApply g p token card pid) m
            (res.1, res.2, none)

/-- The refill loop of `endTurn`: draw from the deck until the hand holds
`HAND_SIZE` cards or the deck runs out. -/
def drawLoop : List Int → List Int → List Int × List Int
  | hand, [] => (hand, [])
  | hand, c :: rest =>
    if hand.length < HAND_SIZE then drawLoop (hand ++ [c]) rest
    else (hand, c :: rest)

/-- The mutation block of the `endTurn` handler: refill the hand, reset the
per-turn counter, advance the turn to the next connected token. -/
def endTurnApply (g : Game) (p : Player) (token : String) : Game :=
  let res := drawLoop p.hand g.deck
  let g1 := { g with
    players := setKeyA g.players token ({ p with hand := res.1 })
    deck := res.2
    playedThisTurn := setKeyA g.playedThisTurn token 0 }
  { g1 with turnToken := nextConnectedToken g1 token }

/-- The `endTurn` event handler body (after the room was loaded). -/
def endTurnRun (g : Game) (m : StatsMap) (token : String) : Game × StatsMap × Option Err :=
  if token = "" then (g, m, none)
  else if g.status ≠ Status.playing then (g, m, none)
  else if g.turnToken ≠ some token then (g, m, some Err.notYourTurn)
  else
    match findKeyA g.players token with
    | none => (g, m, some Err.unknownPlayer)
    | some p =>
      let played := playedOf g token
      let minPlays := minPlaysThisTurn g
      let canMove := anyLegalMoveForToken g token
      if played < minPlays ∧ canMove = true then (g, m, some (Err.mustPlayMore minPlays))
      else
        let res2 := checkWinLose (endTurnApply g p token) m
        (res2.1, res2.2, none)

/-- The hand-clearing loop of the `rematch` handler. -/
def clearHands (ps : List (String × Player)) : List (String × Player) :=
  ps.map (fun q => (q.1, { q.2 with hand := ([] : List Int) }))

/-- The `rematch` event handler body (after the room was loaded). -/
def rematchRun (g : Game) (shuffled : List Int) : Game :=
  let g1 := { g with
    status := Status.waiting
    deck := ([] : List Int)
    piles := (⟨1, 1, 100, 100⟩ : Piles)
    turnToken := (none : Option String)
    playedThisTurn := ([] : List (String × Nat))
    pilePings := ([] : List (PileId × PingInfo))
    start := (none : Option StartState)
    players := clearHands g.players }
  startChoosingIfReady g1 shuffled

/-- The `pilePing` event handler body (after the room was loaded). -/
def pilePingRun (g : Game) (pileStr ty : String) (ts : Int) : Game :=
  match parsePile pileStr with
  | none => g
  | some pid =>
    if ty = "have" ∨ ty = "dont" then
      { g with pilePings := setKeyA g.pilePings pid ⟨ty, ts⟩ }
    else g

/-- The `disconnect` event handler body for a socket registered on the room
with the given token. -/
def disconnectRun (g : Game) (token : String) : Game :=
  match findKeyA g.players token with
  | none => g
  | some p =>
    let p' : Player := { p with connected := false, socketId := none }
    { g with players := setKeyA g.players token p' }

/-- The multiset of all cards held in seated hands. -/
def handsM (ps : List (String × Player)) : Multiset Int :=
  (ps.map (fun q => (q.2.hand : Multiset Int))).sum

/-- The multiset of the four pile top values. -/
def topsM (P : Piles) : Multiset Int :=
  ({P.up1} : Multiset Int) + {P.up2} + {P.down1} + {P.down2}

/-- The four sentinel seed values 1,1,100,100. -/
def sentinelsM : Multiset Int := ({1} : Multiset Int) + {1} + {100} + {100}

/-- The multiset 2..99 a fresh deck holds. -/
def fullDeckM : Multiset Int := (stdDeckInt : Multiset Int)

/-- The union named by the data-model invariant: deck, all seated hands, and
the pile tops minus the sentinel seed values. -/
def cardsUnion (g : Game) : Multiset Int :=
  (g.deck : Multiset Int) + handsM g.players + (topsM g.piles - sentinelsM)

/-- The multiset of cards in the deck and the seated hands. -/
def deckHandsM (g : Game) : Multiset Int :=
  (g.deck : Multiset Int) + handsM g.players

/-- Room states reachable through the event handlers, starting from a freshly
created room. Shuffle parameters range over permutations of 2..99, the starter
pick and timestamps over everything. -/
inductive Reachable : Game → Prop where
  | create (room : String) (mp : Int) (ts : Int) :
      Reachable (initGame room (clampMP mp) ts)
  | createAgain {g : Game} (mp : Int) :
      Reachable g → Reachable (createOnExisting g (clampMP mp))
  | join {g : Game} (token name sid : String) {shuffled : List Int}
      (hs : shuffled.Perm stdDeckInt) :
      Reachable g → Reachable (joinRun g token name sid shuffled).1
  | vote {g : Game} (token pref : String) (r : Nat) :
      Reachable g → Reachable (startPrefRun g token pref r)
  | play {g : Game} (m : StatsMap) (token : String) (card : Int) (pileStr : String) :
      Reachable g → Reachable (playRun g m token card pileStr).1
  | endTurn {g : Game} (m : StatsMap) (token : String) :
      Reachable g → Reachable (endTurnRun g m token).1
  | rematch {g : Game} {shuffled : List Int} (hs : shuffled.Perm stdDeckInt) :
      Reachable g → Reachable (rematchRun g shuffled)
  | ping {g : Game} (pileStr ty : String) (ts : Int) :
      Reachable g → Reachable (pilePingRun g pileStr ty ts)
  | leave {g : Game} (token : String) :
      Reachable g → Reachable (disconnectRun g token)

/-- The seated tokens whose recorded start preference is "can". -/
def canVoters (g : Game) : List String :=
  (tokensOf g).filter
    (fun u => decide (findKeyA ((g.start.map StartState.pref).getD []) u = some StartChoice.can))

/-- Every currently seated token has a recorded start vote. -/
def votedAllB (g : Game) : Bool :=
  (tokensOf g).all (fun u => (findKeyA ((g.start.map StartState.made).getD []) u).getD false)

/-- An all-zero stats store. -/
def m0 : StatsMap := fun _ => ⟨0, 0, 0⟩

/-- The cards placed at the pop end of the scenario deck `dLose` (drawn
first): the two hands dealt to A and B followed by A's refill. -/
def usedPre : List Int := [99, 98, 2, 3, 50, 51, 20, 21, 22, 23, 24, 25, 4, 5, 6, 7]

/-- A concrete shuffle outcome: a permutation of 2..99 whose pop end starts
with `usedPre`. -/
def dLose : List Int := usedPre ++ stdDeckInt.filter (fun c => decide (c ∉ usedPre))

/-- Scenario: a fresh two-player room "R1". -/
def s0 : Game := initGame "R1" 2 0

/-- Scenario: A joined. -/
def s1 : Game := (joinRun s0 "A" "Al" "x1" dLose).1

/-- Scenario: B joined; the room reached capacity and dealt from `dLose`
(A holds 99,98,2,3,50,51 and B holds 20..25). -/
def s2 : Game := (joinRun s1 "B" "Bo" "x2" dLose).1

/-- Scenario: A voted "can". -/
def s3 : Game := startPrefRun s2 "A" "can" 0

/-- Scenario: B voted "not"; the vote resolved, A starts, status playing. -/
def s4 : Game := startPrefRun s3 "B" "not" 0

/-- Scenario: B disconnected while A holds the turn. -/
def s5 : Game := disconnectRun s4 "B"

/-- Scenario: A played 99 on up1. -/
def s6 : Game := (playRun s5 m0 "A" 99 "up1").1

/-- Scenario: A played 98 on up2. -/
def s7 : Game := (playRun s6 m0 "A" 98 "up2").1

/-- Scenario: A played 2 on down1. -/
def s8 : Game := (playRun s7 m0 "A" 2 "down1").1

/-- Scenario: A played 3 on down2; the connected player A has no legal card
left against piles 99/98/2/3, so the room latched to lose. -/
def s9 : Game := (playRun s8 m0 "A" 3 "down2").1

/-- Branch of the scenario at `s4`: A played 98 on up1. -/
def t1 : Game := (playRun s4 m0 "A" 98 "up1").1

/-- Branch of the scenario at `s4`: A then played 99 on the same pile up1,
burying the 98. -/
def t2 : Game := (playRun t1 m0 "A" 99 "up1").1

/-- Shrink scenario: a fresh four-player room "S". -/
def u0 : Game := initGame "S" (clampMP 4) 10

/-- Shrink scenario: A joined. -/
def u1 : Game := (joinRun u0 "A" "" "y1" stdDeckInt).1

/-- Shrink scenario: B joined. -/
def u2 : Game := (joinRun u1 "B" "" "y2" stdDeckInt).1

/-- Shrink scenario: C joined; the room still waits at 3 of 4 seats. -/
def u3 : Game := (joinRun u2 "C" "" "y3" stdDeckInt).1

/-- Shrink scenario: a second create for "S" with maxPlayers 2 overwrote
`maxPlayers` on the waiting room, leaving 3 seated players in a room whose
capacity now reads 2. -/
def u4 : Game := createOnExisting u3 (clampMP 2)

/-- Shrink scenario: the known token A rejoins the waiting-but-over-capacity
room, which fires the deal. -/
def u5 : Game × Option Err := joinRun u4 "A" "" "y4" stdDeckInt

/-- A small room one evaluation away from the lose latch: piles at 99/98/2/3,
both connected players hold a single dead card, deck nonempty. -/
def gW : Game :=
  { room := "W"
    maxPlayers := 2
    status := Status.playing
    createdAt := 0
    deck := [4]
    piles := ⟨99, 98, 2, 3⟩
    players := [("A", ⟨"", [50], true, some "w1"⟩), ("B", ⟨"", [51], true, some "w2"⟩)]
    turnToken := some "A"
    playedThisTurn := []
    pilePings := []
    start := none }

/-! ### Association-list lemmas -/

theorem findKeyA_none_not_mem {α β : Type} [DecidableEq α] {a : α} :
    ∀ {ps : List (α × β)}, findKeyA ps a = none → a ∉ ps.map Prod.fst
  | [], _ => by simp
  | (k, v) :: r, h => by
    by_cases hk : k = a
    · simp [findKeyA, hk] at h
    · simp only [findKeyA, if_neg hk] at h
      simp only [List.map_cons, List.mem_cons]
      push_neg
      exact ⟨fun ha => hk ha.symm, findKeyA_none_not_mem h⟩

theorem setKeyA_of_none {α β : Type} [DecidableEq α] {a : α} (b : β) :
    ∀ {ps : List (α × β)}, findKeyA ps a = none → setKeyA ps a b = ps ++ [(a, b)]
  | [], _ => rfl
  | (k, v) :: r, h => by
    by_cases hk : k = a
    · simp [findKeyA, hk] at h
    · simp only [findKeyA, if_neg hk] at h
      simp only [setKeyA, if_neg hk, List.cons_append, List.cons.injEq, true_and]
      exact setKeyA_of_none b h

theorem keys_setKeyA_of_some {α β : Type} [DecidableEq α] {a : α} {b0 : β} (b : β) :
    ∀ {ps : List (α × β)}, findKeyA ps a = some b0 →
      (setKeyA ps a b).map Prod.fst = ps.map Prod.fst
  | [], h => by simp [findKeyA] at h
  | (k, v) :: r, h => by
    by_cases hk : k = a
    · subst hk
      simp [setKeyA]
    · simp only [findKeyA, if_neg hk] at h
      simp only [setKeyA, if_neg hk, List.map_cons]
      rw [keys_setKeyA_of_some b h]

theorem findKeyA_setKeyA_self {α β : Type} [DecidableEq α] (a : α) (b : β) :
    ∀ (ps : List (α × β)), findKeyA (setKeyA ps a b) a = some b
  | [] => by simp [setKeyA, findKeyA]
  | (k, v) :: r => by
    by_cases hk : k = a
    · simp [setKeyA, hk, findKeyA]
    · simp [setKeyA, hk, findKeyA, findKeyA_setKeyA_self a b r]

theorem findKeyA_setKeyA_ne {α β : Type} [DecidableEq α] {a c : α} (b : β) (hne : c ≠ a) :
    ∀ (ps : List (α × β)), findKeyA (setKeyA ps a b) c = findKeyA ps c
  | [] => by
    simp only [setKeyA, findKeyA]
    rw [if_neg (fun h => hne h.symm)]
  | (k, v) :: r => by
    by_cases hk : k = a
    · subst hk
      simp only [setKeyA, if_pos rfl, findKeyA]
      rw [if_neg (fun h => hne h.symm), if_neg (fun h : k = c => hne h.symm)]
    · simp only [setKeyA, if_neg hk, findKeyA]
      by_cases hkc : k = c
      · simp [hkc]
      · simp only [if_neg hkc]
        exact findKeyA_setKeyA_ne b hne r

theorem length_setKeyA_of_some {α β : Type} [DecidableEq α] {a : α} {b0 : β} (b : β)
    {ps : List (α × β)} (h : findKeyA ps a = some b0) :
    (setKeyA ps a b).length = ps.length := by
  calc (setKeyA ps a b).length
      = ((setKeyA ps a b).map Prod.fst).length := (List.length_map _ _).symm
    _ = (ps.map Prod.fst).length := by rw [keys_setKeyA_of_some b h]
    _ = ps.length := List.length_map _ _

/-! ### Hand-multiset lemmas -/

theorem handsM_nil : handsM [] = 0 := rfl

theorem handsM_cons (q : String × Player) (r : List (String × Player)) :
    handsM (q :: r) = (q.2.hand : Multiset Int) + handsM r := by
  simp [handsM]

theorem handsM_append (ps qs : List (String × Player)) :
    handsM (ps ++ qs) = handsM ps + handsM qs := by
  simp [handsM]

theorem handsM_setKeyA_add {t : String} {p : Player} (p' : Player) :
    ∀ {ps : List (String × Player)}, findKeyA ps t = some p →
      handsM (setKeyA ps t p') + (p.hand : Multiset Int) =
        handsM ps + (p'.hand : Multiset Int)
  | [], h => by simp [findKeyA] at h
  | (k, v) :: r, h => by
    by_cases hk : k = t
    · subst hk
      have h' : v = p := by simpa [findKeyA] using h
      subst h'
      have hset : setKeyA ((k, v) :: r) k p' = (k, p') :: r := by simp [setKeyA]
      rw [hset, handsM_cons, handsM_cons]
      abel
    · simp only [findKeyA, if_neg hk] at h
      simp only [setKeyA, if_neg hk, handsM_cons]
      rw [add_assoc, add_assoc, handsM_setKeyA_add p' h]

theorem handsM_setKeyA_hand_eq {t : String} (p p' : Player) (hh : p'.hand = p.hand)
    {ps : List (String × Player)} (h : findKeyA ps t = some p) :
    handsM (setKeyA ps t p') = handsM ps := by
  have h2 := handsM_setKeyA_add (p := p) p' h
  rw [hh] at h2
  exact add_right_cancel h2

theorem handsM_eq_zero_iff :
    ∀ (ps : List (String × Player)),
      (handsM ps = 0 ↔ ps.all (fun q => q.2.hand.isEmpty) = true)
  | [] => by simp [handsM_nil]
  | q :: r => by
    rw [handsM_cons, List.all_cons]
    constructor
    · intro h
      have h1 : (q.2.hand : Multiset Int) = 0 ∧ handsM r = 0 := by
        constructor
        · exact le_antisymm (h ▸ le_add_right (le_refl _)) (Multiset.zero_le _)
        · exact le_antisymm (h ▸ le_add_left (le_refl _)) (Multiset.zero_le _)
      have h2 : q.2.hand = [] := by
        have := h1.1
        rwa [Multiset.coe_eq_zero] at this
      simp [h2, (handsM_eq_zero_iff r).mp h1.2]
    · intro h
      simp only [Bool.and_eq_true, List.isEmpty_iff] at h
      rw [h.1, (handsM_eq_zero_iff r).mpr h.2]
      simp

theorem handsEmptyB_iff (g : Game) : handsEmptyB g = true ↔ handsM g.players = 0 :=
  (handsM_eq_zero_iff g.players).symm

theorem handsM_clear :
    ∀ (ps : List (String × Player)), handsM (clearHands ps) = 0
  | [] => rfl
  | q :: r => by
    simp only [clearHands, List.map_cons, handsM_cons]
    have := handsM_clear r
    simp only [clearHands] at this
    rw [this]
    rfl

theorem keys_map_clear (ps : List (String × Player)) :
    (clearHands ps).map Prod.fst = ps.map Prod.fst := by
  rw [clearHands, List.map_map]
  rfl

/-! ### Draw and deal lemmas -/

theorem drawLoop_multiset : ∀ (d h : List Int),
    ((drawLoop h d).1 : Multiset Int) + ((drawLoop h d).2 : Multiset Int) =
      (h : Multiset Int) + (d : Multiset Int)
  | [], h => by simp [drawLoop]
  | c :: rest, h => by
    by_cases hl : h.length < HAND_SIZE
    · simp only [drawLoop, if_pos hl]
      rw [drawLoop_multiset rest (h ++ [c])]
      show (((h ++ [c]) ++ rest : List Int) : Multiset Int) =
        ((h ++ c :: rest : List Int) : Multiset Int)
      rw [List.append_assoc]
      rfl
    · simp only [drawLoop, if_neg hl]

theorem dealHands_keys : ∀ (ps : List (String × Player)) (d : List Int),
    (dealHands ps d).1.map Prod.fst = ps.map Prod.fst
  | [], _ => rfl
  | (t, p) :: r, d => by
    simp only [dealHands, List.map_cons]
    rw [dealHands_keys r]

theorem dealHands_multiset : ∀ (ps : List (String × Player)) (d : List Int),
    handsM (dealHands ps d).1 + ((dealHands ps d).2 : Multiset Int) = (d : Multiset Int)
  | [], d => by simp [dealHands, handsM_nil]
  | (t, p) :: r, d => by
    simp only [dealHands, handsM_cons]
    rw [add_assoc, dealHands_multiset r (d.drop HAND_SIZE)]
    show ((d.take HAND_SIZE ++ d.drop HAND_SIZE : List Int) : Multiset Int) = (d : Multiset Int)
    rw [List.take_append_drop]

theorem dealHands_connected : ∀ (ps : List (String × Player)) (d : List Int) (t : String),
    (findKeyA (dealHands ps d).1 t).map Player.connected =
      (findKeyA ps t).map Player.connected
  | [], _, _ => rfl
  | (k, p) :: r, d, t => by
    by_cases hk : k = t
    · simp [dealHands, findKeyA, hk]
    · simp only [dealHands, findKeyA, if_neg hk]
      exact dealHands_connected r (d.drop HAND_SIZE) t

/-! ### Pile and play multiset lemmas -/

theorem filter_remove_le {l : List Int} {c : Int} (hc : c ∈ l) :
    (↑(l.filter (fun x => decide (x ≠ c))) : Multiset Int) + {c} ≤ (l : Multiset Int) := by
  rw [← Multiset.filter_coe (fun x => x ≠ c) l, Multiset.le_iff_count]
  intro a
  rw [Multiset.count_add]
  by_cases hac : a = c
  · rw [Multiset.count_filter_of_neg (p := fun x => x ≠ c) (not_not_intro hac),
      Multiset.count_singleton, if_pos hac, hac]
    have : 0 < Multiset.count c (l : Multiset Int) :=
      Multiset.count_pos.mpr (by exact_mod_cast hc)
    omega
  · rw [Multiset.count_filter_of_pos (p := fun x => x ≠ c) hac,
      Multiset.count_singleton, if_neg hac]
    omega

theorem topsM_write (P : Piles) (pid : PileId) (c : Int) :
    topsM (P.write pid c) + {P.value pid} = topsM P + {c} := by
  cases pid <;> simp only [topsM, Piles.write, Piles.value] <;> abel

theorem topsM_write_le (P : Piles) (pid : PileId) (c : Int) :
    topsM (P.write pid c) ≤ topsM P + {c} := by
  calc topsM (P.write pid c) ≤ topsM (P.write pid c) + {P.value pid} :=
        le_add_right (le_refl _)
    _ = topsM P + {c} := topsM_write P pid c

theorem tops_sub_write_le (P : Piles) (pid : PileId) (c : Int) :
    topsM (P.write pid c) - sentinelsM ≤ (topsM P - sentinelsM) + {c} := by
  calc topsM (P.write pid c) - sentinelsM
      ≤ (topsM P + {c}) - sentinelsM := tsub_le_tsub_right (topsM_write_le P pid c) _
    _ ≤ (topsM P - sentinelsM) + {c} := by
        rw [Multiset.sub_le_iff_le_add]
        calc topsM P + {c} ≤ (topsM P - sentinelsM + sentinelsM) + {c} :=
              add_le_add_right le_tsub_add _
          _ = topsM P - sentinelsM + {c} + sentinelsM := by
              generalize topsM P - sentinelsM = X
              abel

theorem cardsUnion_playApply_le {g : Game} {p : Player} {t : String} {c : Int} (pid : PileId)
    (hf : findKeyA g.players t = some p) (hc : c ∈ p.hand) :
    cardsUnion (playApply g p t c pid) ≤ cardsUnion g := by
  have hH := handsM_setKeyA_add (p := p)
    ({ p with hand := p.hand.filter (fun x => decide (x ≠ c)) }) hf
  have hFil := filter_remove_le (l := p.hand) (c := c) hc
  have hH2 : handsM (setKeyA g.players t
      ({ p with hand := p.hand.filter (fun x => decide (x ≠ c)) })) + {c} ≤
      handsM g.players := by
    have step : handsM (setKeyA g.players t
        ({ p with hand := p.hand.filter (fun x => decide (x ≠ c)) })) + {c} + (p.hand : Multiset Int) ≤
        handsM g.players + (p.hand : Multiset Int) := by
      calc handsM (setKeyA g.players t
            ({ p with hand := p.hand.filter (fun x => decide (x ≠ c)) })) + {c} + (p.hand : Multiset Int)
          = handsM (setKeyA g.players t
            ({ p with hand := p.hand.filter (fun x => decide (x ≠ c)) })) + (p.hand : Multiset Int) + {c} := by
            abel
        _ = handsM g.players + ↑(p.hand.filter (fun x => decide (x ≠ c))) + {c} := by rw [hH]
        _ = handsM g.players + (↑(p.hand.filter (fun x => decide (x ≠ c))) + {c}) := by abel
        _ ≤ handsM g.players + (p.hand : Multiset Int) := add_le_add_left hFil _
    exact le_of_add_le_add_right step
  show (g.deck : Multiset Int) + handsM (setKeyA g.players t
      ({ p with hand := p.hand.filter (fun x => decide (x ≠ c)) })) +
      (topsM (g.piles.write pid c) - sentinelsM) ≤ cardsUnion g
  calc (g.deck : Multiset Int) + handsM (setKeyA g.players t
        ({ p with hand := p.hand.filter (fun x => decide (x ≠ c)) })) +
        (topsM (g.piles.write pid c) - sentinelsM)
      ≤ (g.deck : Multiset Int) + handsM (setKeyA g.players t
        ({ p with hand := p.hand.filter (fun x => decide (x ≠ c)) })) +
        ((topsM g.piles - sentinelsM) + {c}) :=
        add_le_add_left (tops_sub_write_le g.piles pid c) _
    _ = (g.deck : Multiset Int) + (handsM (setKeyA g.players t
        ({ p with hand := p.hand.filter (fun x => decide (x ≠ c)) })) + {c}) +
        (topsM g.piles - sentinelsM) := by
        generalize topsM g.piles - sentinelsM = X
        abel
    _ ≤ (g.deck : Multiset Int) + handsM g.players + (topsM g.piles - sentinelsM) :=
        add_le_add_right (add_le_add_left hH2 _) _

theorem cardsUnion_endTurnApply {g : Game} {p : Player} {t : String}
    (hf : findKeyA g.players t = some p) :
    cardsUnion (endTurnApply g p t) = cardsUnion g := by
  have hd := drawLoop_multiset g.deck p.hand
  have hH := handsM_setKeyA_add (p := p) ({ p with hand := (drawLoop p.hand g.deck).1 }) hf
  have key : ((drawLoop p.hand g.deck).2 : Multiset Int) +
      handsM (setKeyA g.players t ({ p with hand := (drawLoop p.hand g.deck).1 })) =
      (g.deck : Multiset Int) + handsM g.players := by
    have step : ((drawLoop p.hand g.deck).2 : Multiset Int) +
        handsM (setKeyA g.players t ({ p with hand := (drawLoop p.hand g.deck).1 })) +
        (p.hand : Multiset Int) =
        (g.deck : Multiset Int) + handsM g.players + (p.hand : Multiset Int) := by
      calc ((drawLoop p.hand g.deck).2 : Multiset Int) +
          handsM (setKeyA g.players t ({ p with hand := (drawLoop p.hand g.deck).1 })) +
          (p.hand : Multiset Int)
          = ((drawLoop p.hand g.deck).2 : Multiset Int) +
            (handsM (setKeyA g.players t ({ p with hand := (drawLoop p.hand g.deck).1 })) +
              (p.hand : Multiset Int)) := by abel
        _ = ((drawLoop p.hand g.deck).2 : Multiset Int) +
            (handsM g.players + ((drawLoop p.hand g.deck).1 : Multiset Int)) := by rw [hH]
        _ = handsM g.players + (((drawLoop p.hand g.deck).1 : Multiset Int) +
            ((drawLoop p.hand g.deck).2 : Multiset Int)) := by abel
        _ = handsM g.players + ((p.hand : Multiset Int) + (g.deck : Multiset Int)) := by rw [hd]
        _ = (g.deck : Multiset Int) + handsM g.players + (p.hand : Multiset Int) := by abel
    exact add_right_cancel step
  show ((drawLoop p.hand g.deck).2 : Multiset Int) +
      handsM (setKeyA g.players t ({ p with hand := (drawLoop p.hand g.deck).1 })) +
      (topsM g.piles - sentinelsM) = cardsUnion g
  exact congrArg (· + (topsM g.piles - sentinelsM)) key

theorem tokensOf_playApply {g : Game} {p : Player} {t : String} {c : Int} (pid : PileId)
    (hf : findKeyA g.players t = some p) :
    tokensOf (playApply g p t c pid) = tokensOf g :=
  keys_setKeyA_of_some _ hf

theorem tokensOf_endTurnApply {g : Game} {p : Player} {t : String}
    (hf : findKeyA g.players t = some p) :
    tokensOf (endTurnApply g p t) = tokensOf g :=
  keys_setKeyA_of_some _ hf

/-! ### checkWinLose case analysis -/

theorem checkWinLose_fst_cases (g : Game) (m : StatsMap) :
    (checkWinLose g m).1 = g ∨
    ((checkWinLose g m).1 = { g with status := Status.win } ∧
      (g.deck.isEmpty && handsEmptyB g) = true) ∨
    ((checkWinLose g m).1 = { g with status := Status.lose } ∧
      (g.deck.isEmpty && handsEmptyB g) = false) := by
  unfold checkWinLose
  split_ifs with h1 h2 h3 h4
  · exact Or.inr (Or.inl ⟨rfl, h1⟩)
  · exact Or.inl rfl
  · exact Or.inr (Or.inr ⟨rfl, by simpa using h1⟩)
  · exact Or.inl rfl
  · exact Or.inl rfl

/-! ### Handler case analysis -/

theorem playRun_fst_cases (g : Game) (m : StatsMap) (t : String) (c : Int) (pstr : String) :
    (playRun g m t c pstr).1 = g ∨
    ∃ p pid, g.status = Status.playing ∧ findKeyA g.players t = some p ∧ c ∈ p.hand ∧
      (playRun g m t c pstr).1 = (checkWinLose (playApply g p t c pid) m).1 := by
  unfold playRun
  dsimp only
  split
  next => exact Or.inl rfl
  next h1 =>
    split
    next => exact Or.inl rfl
    next h2 =>
      split
      next => exact Or.inl rfl
      next h3 =>
        split
        next => exact Or.inl rfl
        next p hf =>
          split
          next => exact Or.inl rfl
          next hmem =>
            split
            next => exact Or.inl rfl
            next pid hpid =>
              split
              next => exact Or.inl rfl
              next hcan =>
                exact Or.inr ⟨p, pid, not_not.mp h2, hf, not_not.mp hmem, rfl⟩

theorem endTurnRun_fst_cases (g : Game) (m : StatsMap) (t : String) :
    (endTurnRun g m t).1 = g ∨
    ∃ p, g.status = Status.playing ∧ findKeyA g.players t = some p ∧
      (endTurnRun g m t).1 = (checkWinLose (endTurnApply g p t) m).1 := by
  unfold endTurnRun
  dsimp only
  split
  next => exact Or.inl rfl
  next h1 =>
    split
    next => exact Or.inl rfl
    next h2 =>
      split
      next => exact Or.inl rfl
      next h3 =>
        split
        next => exact Or.inl rfl
        next p hf =>
          split
          next => exact Or.inl rfl
          next h4 =>
            exact Or.inr ⟨p, not_not.mp h2, hf, rfl⟩

theorem joinRun_fst_cases (g : Game) (t n sid : String) (sh : List Int) :
    (joinRun g t n sid sh).1 = g ∨
    (∃ p, findKeyA g.players t = some p ∧
      (joinRun g t n sid sh).1 = startChoosingIfReady
        { g with players := (setKeyA g.players t
            { p with
                name := (if n = "" then p.name else n)
                connected := true
                socketId := some sid }) } sh) ∨
    (findKeyA g.players t = none ∧
      (joinRun g t n sid sh).1 = startChoosingIfReady
        { g with players := (setKeyA g.players t
            { name := n
              hand := []
              connected := true
              socketId := some sid }) } sh) := by
  unfold joinRun
  dsimp only
  split
  next => exact Or.inl rfl
  next h1 =>
    split
    next => exact Or.inl rfl
    next h2 =>
      cases hf : findKeyA g.players t with
      | none =>
        simp only [hf]
        exact Or.inr (Or.inr ⟨trivial, trivial⟩)
      | some p =>
        simp only [hf]
        exact Or.inr (Or.inl ⟨p, rfl, rfl⟩)

theorem startPrefRun_cases (g : Game) (t pf : String) (r : Nat) :
    startPrefRun g t pf r = g ∨
    (g.status = Status.choosing_start ∧
      startPrefRun g t pf r = decideStarterIfAllMade
        { g with start := (some ⟨
            setKeyA (g.start.getD ⟨[], []⟩).made t true,
            setKeyA (g.start.getD ⟨[], []⟩).pref t
              (if pf = "can" then StartChoice.can else StartChoice.not)⟩) } r) := by
  unfold startPrefRun
  dsimp only
  split
  next => exact Or.inl rfl
  next h1 =>
    split
    next => exact Or.inl rfl
    next h2 =>
      exact Or.inr ⟨not_not.mp h2, rfl⟩

theorem decideStarter_cases (g : Game) (r : Nat) :
    decideStarterIfAllMade g r = g ∨
    ((decideStarterIfAllMade g r).status = Status.playing ∧
      (decideStarterIfAllMade g r).deck = g.deck ∧
      (decideStarterIfAllMade g r).players = g.players ∧
      (decideStarterIfAllMade g r).piles = g.piles ∧
      (decideStarterIfAllMade g r).start = g.start ∧
      (decideStarterIfAllMade g r).maxPlayers = g.maxPlayers) := by
  unfold decideStarterIfAllMade
  dsimp only
  split
  next => exact Or.inl rfl
  next h1 =>
    split
    next => exact Or.inl rfl
    next h2 =>
      split
      · exact Or.inr ⟨rfl, rfl, rfl, rfl, rfl, rfl⟩
      · exact Or.inr ⟨rfl, rfl, rfl, rfl, rfl, rfl⟩

theorem startChoosing_cases (g : Game) (sh : List Int) :
    startChoosingIfReady g sh = g ∨
    (g.status = Status.waiting ∧ g.maxPlayers ≤ (tokensOf g).length ∧
      startChoosingIfReady g sh = { g with
        deck := (dealHands g.players sh).2
        piles := ⟨1, 1, 100, 100⟩
        turnToken := none
        playedThisTurn := []
        pilePings := []
        start := some ⟨[], []⟩
        players := (dealHands g.players sh).1
        status := Status.choosing_start }) := by
  unfold startChoosingIfReady
  dsimp only
  split
  next => exact Or.inl rfl
  next h1 =>
    split
    next => exact Or.inl rfl
    next h2 =>
      exact Or.inr ⟨not_not.mp h1, Nat.le_of_not_lt h2, rfl⟩

/-! ### The preserved well-formedness bundle -/

/-- Room well-formedness: distinct seat keys, the card union inside 2..99,
and terminal statuses consistent with the card state. -/
structure WF (g : Game) : Prop where
  keysNodup : (tokensOf g).Nodup
  unionLe : cardsUnion g ≤ fullDeckM
  winEmpty : g.status = Status.win → (g.deck.isEmpty && handsEmptyB g) = true
  loseNonempty : g.status = Status.lose → (g.deck.isEmpty && handsEmptyB g) = false

theorem fullDeck_nodup : fullDeckM.Nodup := by decide

theorem WF_initGame (room : String) (mp : Nat) (ts : Int) : WF (initGame room mp ts) := by
  refine ⟨List.nodup_nil, ?_, ?_, ?_⟩
  · have h0 : cardsUnion (initGame room mp ts) = 0 := by
      show (([] : List Int) : Multiset Int) + handsM [] +
        (topsM ((⟨1, 1, 100, 100⟩ : Piles)) - sentinelsM) = 0
      decide
    rw [h0]
    exact Multiset.zero_le _
  · intro hw
    exact Status.noConfusion hw
  · intro hl
    exact Status.noConfusion hl

theorem WF_createOnExisting (g : Game) (mp : Nat) (h : WF g) : WF (createOnExisting g mp) := by
  unfold createOnExisting
  split
  · exact ⟨h.keysNodup, h.unionLe, h.winEmpty, h.loseNonempty⟩
  · exact h

theorem WF_players_congr (g : Game) (ps' : List (String × Player))
    (hkeys : (ps'.map Prod.fst).Nodup) (hm : handsM ps' = handsM g.players) (h : WF g) :
    WF { g with players := ps' } := by
  have hhe : handsEmptyB { g with players := ps' } = handsEmptyB g := by
    apply Bool.eq_iff_iff.mpr
    rw [handsEmptyB_iff, handsEmptyB_iff]
    show handsM ps' = 0 ↔ handsM g.players = 0
    rw [hm]
  refine ⟨hkeys, ?_, ?_, ?_⟩
  · show (g.deck : Multiset Int) + handsM ps' + (topsM g.piles - sentinelsM) ≤ fullDeckM
    rw [hm]
    exact h.unionLe
  · intro hst
    show (g.deck.isEmpty && handsEmptyB { g with players := ps' }) = true
    rw [hhe]
    exact h.winEmpty hst
  · intro hst
    show (g.deck.isEmpty && handsEmptyB { g with players := ps' }) = false
    rw [hhe]
    exact h.loseNonempty hst

theorem WF_startChoosing (g : Game) (sh : List Int) (hp : sh.Perm stdDeckInt) (h : WF g) :
    WF (startChoosingIfReady g sh) := by
  rcases startChoosing_cases g sh with hc | ⟨hw, hsz, hc⟩
  · rw [hc]
    exact h
  · rw [hc]
    refine ⟨?_, ?_, ?_, ?_⟩
    · show ((dealHands g.players sh).1.map Prod.fst).Nodup
      rw [dealHands_keys]
      exact h.keysNodup
    · show ((dealHands g.players sh).2 : Multiset Int) + handsM (dealHands g.players sh).1 +
        (topsM (⟨1, 1, 100, 100⟩ : Piles) - sentinelsM) ≤ fullDeckM
      have hts : topsM ((⟨1, 1, 100, 100⟩ : Piles)) - sentinelsM = 0 := by decide
      rw [hts, add_zero, add_comm, dealHands_multiset]
      exact le_of_eq (Multiset.coe_eq_coe.mpr hp)
    · intro hst
      exact Status.noConfusion hst
    · intro hst
      exact Status.noConfusion hst

theorem WF_checkWinLose (g : Game) (m : StatsMap) (hnd : (tokensOf g).Nodup)
    (hle : cardsUnion g ≤ fullDeckM) (hst : g.status = Status.playing) :
    WF (checkWinLose g m).1 := by
  rcases checkWinLose_fst_cases g m with hc | ⟨hc, hcond⟩ | ⟨hc, hcond⟩
  · rw [hc]
    refine ⟨hnd, hle, ?_, ?_⟩
    · intro hw
      exact Status.noConfusion (hst.symm.trans hw)
    · intro hl
      exact Status.noConfusion (hst.symm.trans hl)
  · rw [hc]
    refine ⟨hnd, hle, ?_, ?_⟩
    · intro _
      exact hcond
    · intro hl
      exact Status.noConfusion hl
  · rw [hc]
    refine ⟨hnd, hle, ?_, ?_⟩
    · intro hw
      exact Status.noConfusion hw
    · intro _
      exact hcond

theorem WF_playRun (g : Game) (m : StatsMap) (t : String) (c : Int) (pstr : String)
    (h : WF g) : WF (playRun g m t c pstr).1 := by
  rcases playRun_fst_cases g m t c pstr with hc | ⟨p, pid, hst, hf, hmem, hc⟩
  · rw [hc]
    exact h
  · rw [hc]
    apply WF_checkWinLose
    · show ((setKeyA g.players t _).map Prod.fst).Nodup
      rw [keys_setKeyA_of_some _ hf]
      exact h.keysNodup
    · exact le_trans (cardsUnion_playApply_le pid hf hmem) h.unionLe
    · exact hst

theorem WF_endTurnRun (g : Game) (m : StatsMap) (t : String) (h : WF g) :
    WF (endTurnRun g m t).1 := by
  rcases endTurnRun_fst_cases g m t with hc | ⟨p, hst, hf, hc⟩
  · rw [hc]
    exact h
  · rw [hc]
    apply WF_checkWinLose
    · show ((setKeyA g.players t _).map Prod.fst).Nodup
      rw [keys_setKeyA_of_some _ hf]
      exact h.keysNodup
    · rw [cardsUnion_endTurnApply hf]
      exact h.unionLe
    · exact hst

theorem WF_joinRun (g : Game) (t n sid : String) (sh : List Int)
    (hp : sh.Perm stdDeckInt) (h : WF g) : WF (joinRun g t n sid sh).1 := by
  rcases joinRun_fst_cases g t n sid sh with hc | ⟨p, hf, hc⟩ | ⟨hf, hc⟩
  · rw [hc]
    exact h
  · rw [hc]
    apply WF_startChoosing _ _ hp
    exact WF_players_congr g _
      (by rw [keys_setKeyA_of_some _ hf]; exact h.keysNodup)
      (handsM_setKeyA_hand_eq p
        ({ p with
          name := (if n = "" then p.name else n)
          connected := true
          socketId := some sid }) rfl hf) h
  · rw [hc]
    apply WF_startChoosing _ _ hp
    apply WF_players_congr g _ ?_ ?_ h
    · rw [setKeyA_of_none _ hf, List.map_append]
      rw [List.nodup_append]
      refine ⟨h.keysNodup, List.nodup_singleton t, ?_⟩
      intro x hx hx2
      simp only [List.map_cons, List.map_nil, List.mem_singleton] at hx2
      subst hx2
      exact findKeyA_none_not_mem hf hx
    · rw [setKeyA_of_none _ hf, handsM_append, handsM_cons, handsM_nil]
      show handsM g.players + ((([] : List Int) : Multiset Int) + 0) = handsM g.players
      simp

theorem WF_decideStarter (g : Game) (r : Nat) (h : WF g) :
    WF (decideStarterIfAllMade g r) := by
  rcases decideStarter_cases g r with hc | ⟨hs, hd, hpl, hpi, hsa, hmp⟩
  · rw [hc]
    exact h
  · refine ⟨?_, ?_, ?_, ?_⟩
    · show ((decideStarterIfAllMade g r).players.map Prod.fst).Nodup
      rw [hpl]
      exact h.keysNodup
    · show ((decideStarterIfAllMade g r).deck : Multiset Int) +
        handsM (decideStarterIfAllMade g r).players +
        (topsM (decideStarterIfAllMade g r).piles - sentinelsM) ≤ fullDeckM
      rw [hd, hpl, hpi]
      exact h.unionLe
    · intro hw
      exact Status.noConfusion (hs.symm.trans hw)
    · intro hl
      exact Status.noConfusion (hs.symm.trans hl)

theorem WF_startPrefRun (g : Game) (t pf : String) (r : Nat) (h : WF g) :
    WF (startPrefRun g t pf r) := by
  rcases startPrefRun_cases g t pf r with hc | ⟨hcs, hc⟩
  · rw [hc]
    exact h
  · rw [hc]
    apply WF_decideStarter
    exact ⟨h.keysNodup, h.unionLe, fun hw => h.winEmpty hw, fun hl => h.loseNonempty hl⟩

theorem WF_rematchRun (g : Game) (sh : List Int) (hp : sh.Perm stdDeckInt) (h : WF g) :
    WF (rematchRun g sh) := by
  unfold rematchRun
  dsimp only
  apply WF_startChoosing _ _ hp
  refine ⟨?_, ?_, ?_, ?_⟩
  · show ((clearHands g.players).map Prod.fst).Nodup
    rw [keys_map_clear]
    exact h.keysNodup
  · show (([] : List Int) : Multiset Int) + handsM (clearHands g.players) +
      (topsM ((⟨1, 1, 100, 100⟩ : Piles)) - sentinelsM) ≤ fullDeckM
    rw [handsM_clear]
    have hts : topsM ((⟨1, 1, 100, 100⟩ : Piles)) - sentinelsM = 0 := by decide
    rw [hts]
    simp
  · intro hw
    exact Status.noConfusion hw
  · intro hl
    exact Status.noConfusion hl

theorem WF_pilePingRun (g : Game) (pstr ty : String) (ts : Int) (h : WF g) :
    WF (pilePingRun g pstr ty ts) := by
  unfold pilePingRun
  split
  · exact h
  · split
    · exact ⟨h.keysNodup, h.unionLe, fun hw => h.winEmpty hw, fun hl => h.loseNonempty hl⟩
    · exact h

theorem WF_disconnectRun (g : Game) (t : String) (h : WF g) : WF (disconnectRun g t) := by
  unfold disconnectRun
  dsimp only
  split
  · exact h
  next p hf =>
    exact WF_players_congr g _
      (by rw [keys_setKeyA_of_some _ hf]; exact h.keysNodup)
      (handsM_setKeyA_hand_eq p
        ({ p with connected := false, socketId := none }) rfl hf) h

theorem reachable_wf {g : Game} (h : Reachable g) : WF g := by
  induction h with
  | create room mp ts => exact WF_initGame room (clampMP mp) ts
  | createAgain mp _ ih => exact WF_createOnExisting _ _ ih
  | join t n sid hs _ ih => exact WF_joinRun _ _ _ _ _ hs ih
  | vote t pf r _ ih => exact WF_startPrefRun _ _ _ _ ih
  | play m t c pstr _ ih => exact WF_playRun _ _ _ _ _ ih
  | endTurn m t _ ih => exact WF_endTurnRun _ _ _ ih
  | rematch hs _ ih => exact WF_rematchRun _ _ hs ih
  | ping pstr ty ts _ ih => exact WF_pilePingRun _ _ _ _ ih
  | leave t _ ih => exact WF_disconnectRun _ _ ih

/-! ### Reachability of the concrete scenario states -/

theorem dLose_perm : dLose.Perm stdDeckInt := by decide

theorem reach_s0 : Reachable s0 := Reachable.create "R1" 2 0

theorem reach_s1 : Reachable s1 := Reachable.join "A" "Al" "x1" dLose_perm reach_s0

theorem reach_s2 : Reachable s2 := Reachable.join "B" "Bo" "x2" dLose_perm reach_s1

theorem reach_s3 : Reachable s3 := Reachable.vote "A" "can" 0 reach_s2

theorem reach_s4 : Reachable s4 := Reachable.vote "B" "not" 0 reach_s3

theorem reach_s5 : Reachable s5 := Reachable.leave "B" reach_s4

theorem reach_s6 : Reachable s6 := Reachable.play m0 "A" 99 "up1" reach_s5

theorem reach_s7 : Reachable s7 := Reachable.play m0 "A" 98 "up2" reach_s6

theorem reach_s8 : Reachable s8 := Reachable.play m0 "A" 2 "down1" reach_s7

theorem reach_s9 : Reachable s9 := Reachable.play m0 "A" 3 "down2" reach_s8

theorem reach_t1 : Reachable t1 := Reachable.play m0 "A" 98 "up1" reach_s4

theorem reach_t2 : Reachable t2 := Reachable.play m0 "A" 99 "up1" reach_t1

theorem reach_u0 : Reachable u0 := Reachable.create "S" 4 10

theorem reach_u1 : Reachable u1 :=
  Reachable.join "A" "" "y1" (List.Perm.refl stdDeckInt) reach_u0

theorem reach_u2 : Reachable u2 :=
  Reachable.join "B" "" "y2" (List.Perm.refl stdDeckInt) reach_u1

theorem reach_u3 : Reachable u3 :=
  Reachable.join "C" "" "y3" (List.Perm.refl stdDeckInt) reach_u2

theorem reach_u4 : Reachable u4 := Reachable.createAgain 2 reach_u3

/-! ### Stats bookkeeping lemmas -/

theorem bumpAll_apply (f : Stats → Stats) :
    ∀ (l : List String), l.Nodup → ∀ (m : StatsMap) (t : String),
      bumpAll f l m t = if t ∈ l then f (m t) else m t
  | [], _, m, t => by simp [bumpAll]
  | h :: r, hnd, m, t => by
    have hh : h ∉ r := (List.nodup_cons.mp hnd).1
    have hnd' : r.Nodup := (List.nodup_cons.mp hnd).2
    show bumpAll f r (statSet m h (f (m h))) t = _
    rw [bumpAll_apply f r hnd' (statSet m h (f (m h))) t]
    by_cases hth : t = h
    · subst hth
      rw [if_neg hh, if_pos (List.mem_cons_self t r)]
      simp [statSet]
    · simp only [statSet, if_neg hth]
      by_cases htr : t ∈ r
      · rw [if_pos htr, if_pos (List.mem_cons_of_mem h htr)]
      · rw [if_neg htr, if_neg (by simp [hth, htr])]

theorem checkWinLose_snd_win (g : Game) (m : StatsMap)
    (h1 : (g.deck.isEmpty && handsEmptyB g) = true) (h2 : g.status ≠ Status.win) :
    (checkWinLose g m).2 = bumpAll winBump (tokensOf g) m := by
  unfold checkWinLose
  rw [if_pos h1, if_pos h2]

theorem checkWinLose_snd_lose (g : Game) (m : StatsMap)
    (h1 : (g.deck.isEmpty && handsEmptyB g) = false)
    (h3 : anyLegalMoveForAnyone g = false) (h2 : g.status ≠ Status.lose) :
    (checkWinLose g m).2 = bumpAll loseBump (tokensOf g) m := by
  unfold checkWinLose
  have hcr : ((!handsEmptyB g || !g.deck.isEmpty) && !anyLegalMoveForAnyone g) = true := by
    cases hde : g.deck.isEmpty <;> cases hhe : handsEmptyB g <;>
      rw [hde, hhe] at h1 <;> simp_all
  rw [if_neg (by simp [h1]), if_pos hcr, if_pos h2]

theorem playRun_stats_frozen (g : Game) (m : StatsMap) (t : String) (c : Int) (pstr : String)
    (hst : g.status ≠ Status.playing) : (playRun g m t c pstr).2.1 = m := by
  unfold playRun
  dsimp only
  by_cases ht : t = ""
  · rw [if_pos ht]
  · rw [if_neg ht, if_pos hst]

theorem endTurnRun_stats_frozen (g : Game) (m : StatsMap) (t : String)
    (hst : g.status ≠ Status.playing) : (endTurnRun g m t).2.1 = m := by
  unfold endTurnRun
  dsimp only
  by_cases ht : t = ""
  · rw [if_pos ht]
  · rw [if_neg ht, if_pos hst]

/-! ### Start-vote lemmas -/

theorem filter_length_eq_iff_all {α : Type} (p : α → Bool) :
    ∀ (l : List α), ((l.filter p).length = l.length ↔ l.all p = true)
  | [] => by simp
  | a :: l => by
    simp only [List.filter_cons, List.all_cons, Bool.and_eq_true]
    by_cases hp : p a = true
    · simp only [hp, if_true, List.length_cons, true_and, Nat.add_right_cancel_iff]
      exact filter_length_eq_iff_all p l
    · simp only [hp, Bool.false_eq_true, if_false, false_and, iff_false, List.length_cons]
      have hle := List.length_filter_le p l
      omega

theorem decideStarter_id (g : Game) (r : Nat) (hcs : g.status = Status.choosing_start)
    (hnv : votedAllB g = false) : decideStarterIfAllMade g r = g := by
  unfold decideStarterIfAllMade
  dsimp only
  rw [if_neg (by simp [hcs]), if_pos ?cond]
  case cond =>
    have hle := List.length_filter_le
      (fun u => (findKeyA ((g.start.map StartState.made).getD []) u).getD false) (tokensOf g)
    have hne2 : ((tokensOf g).filter
        (fun u => (findKeyA ((g.start.map StartState.made).getD []) u).getD false)).length ≠
        (tokensOf g).length := by
      intro h
      rw [filter_length_eq_iff_all] at h
      rw [votedAllB] at hnv
      rw [h] at hnv
      cases hnv
    omega

theorem decideStarter_resolved (g : Game) (r : Nat) (hcs : g.status = Status.choosing_start)
    (hv : votedAllB g = true) (hne : g.players ≠ []) :
    (decideStarterIfAllMade g r).status = Status.playing ∧
    ∃ s, (decideStarterIfAllMade g r).turnToken = some s ∧
      (0 < (canVoters g).length → s ∈ canVoters g) ∧
      ((canVoters g).length = 0 → s ∈ tokensOf g) := by
  have htok : tokensOf g ≠ [] := by
    rw [tokensOf]
    simpa [List.map_eq_nil_iff] using hne
  unfold decideStarterIfAllMade
  dsimp only
  rw [if_neg (by simp [hcs]), if_neg ?cond]
  case cond =>
    have heq : ((tokensOf g).filter
        (fun u => (findKeyA ((g.start.map StartState.made).getD []) u).getD false)).length =
        (tokensOf g).length := by
      rw [filter_length_eq_iff_all]
      rw [votedAllB] at hv
      exact hv
    omega
  · have hfold : (tokensOf g).filter
        (fun u => decide (findKeyA ((g.start.map StartState.pref).getD []) u =
          some StartChoice.can)) = canVoters g := rfl
    rw [hfold]
    have hpoolpos : 0 < (if 0 < (canVoters g).length then canVoters g else tokensOf g).length := by
      by_cases hcan : 0 < (canVoters g).length
      · rw [if_pos hcan]
        exact hcan
      · rw [if_neg hcan]
        exact List.length_pos.mpr htok
    split
    next starter hget =>
      refine ⟨rfl, starter, rfl, ?_, ?_⟩
      · intro hcan
        have := List.get?_mem hget
        rw [if_pos hcan] at this
        exact this
      · intro hz
        have := List.get?_mem hget
        rw [if_neg (by omega)] at this
        exact this
    next hget =>
      exfalso
      rw [List.get?_eq_none] at hget
      have := Nat.mod_lt r hpoolpos
      omega

/-! ### Support lemmas for the join, size, and end-turn claims -/

theorem connectedOf_startChoosing (g : Game) (sh : List Int) (t : String) :
    connectedOf (startChoosingIfReady g sh) t = connectedOf g t := by
  rcases startChoosing_cases g sh with hc | ⟨_, _, hc⟩
  · rw [hc]
  · rw [hc]
    show ((findKeyA (dealHands g.players sh).1 t).map Player.connected).getD false =
      connectedOf g t
    rw [dealHands_connected]
    rfl

theorem dealHands_length (ps : List (String × Player)) (d : List Int) :
    (dealHands ps d).1.length = ps.length := by
  rw [← List.length_map (dealHands ps d).1 Prod.fst, dealHands_keys, List.length_map]

theorem startChoosing_size (g : Game) (sh : List Int)
    (hb : g.players.length ≤ g.maxPlayers) :
    (startChoosingIfReady g sh).players.length ≤ (startChoosingIfReady g sh).maxPlayers := by
  rcases startChoosing_cases g sh with hc | ⟨_, _, hc⟩
  · rw [hc]
    exact hb
  · rw [hc]
    show (dealHands g.players sh).1.length ≤ g.maxPlayers
    rw [dealHands_length]
    exact hb

theorem checkWinLose_size (g : Game) (m : StatsMap)
    (hb : g.players.length ≤ g.maxPlayers) :
    (checkWinLose g m).1.players.length ≤ (checkWinLose g m).1.maxPlayers := by
  rcases checkWinLose_fst_cases g m with hc | ⟨hc, _⟩ | ⟨hc, _⟩ <;> rw [hc] <;> exact hb

theorem joinRun_size (g : Game) (t n sid : String) (sh : List Int)
    (hb : g.players.length ≤ g.maxPlayers) :
    (joinRun g t n sid sh).1.players.length ≤ (joinRun g t n sid sh).1.maxPlayers := by
  unfold joinRun
  dsimp only
  by_cases ht : t = ""
  · rw [if_pos ht]
    exact hb
  · rw [if_neg ht]
    by_cases hfull : (findKeyA g.players t).isSome = false ∧
        g.maxPlayers ≤ (tokensOf g).length
    · rw [if_pos hfull]
      exact hb
    · rw [if_neg hfull]
      cases hf : findKeyA g.players t with
      | some p =>
        apply startChoosing_size
        show (setKeyA g.players t _).length ≤ g.maxPlayers
        rw [length_setKeyA_of_some _ hf]
        exact hb
      | none =>
        apply startChoosing_size
        show (setKeyA g.players t _).length ≤ g.maxPlayers
        rw [setKeyA_of_none _ hf, List.length_append]
        have hlt : ¬ (g.maxPlayers ≤ (tokensOf g).length) :=
          fun hle => hfull ⟨by simp [hf], hle⟩
        have hlen : (tokensOf g).length = g.players.length := List.length_map _ _
        simp only [List.length_cons, List.length_nil]
        omega

/-- The normal form of `endTurnRun` once the requester is the seated turn
holder of a playing room. -/
theorem endTurnRun_nf (g : Game) (m : StatsMap) (t : String) (p : Player)
    (ht : t ≠ "") (hs : g.status = Status.playing) (htt : g.turnToken = some t)
    (hp : findKeyA g.players t = some p) :
    endTurnRun g m t =
      if playedOf g t < minPlaysThisTurn g ∧ anyLegalMoveForToken g t = true
      then (g, m, some (Err.mustPlayMore (minPlaysThisTurn g)))
      else ((checkWinLose (endTurnApply g p t) m).1,
        (checkWinLose (endTurnApply g p t) m).2, none) := by
  unfold endTurnRun
  dsimp only
  rw [if_neg ht, if_neg (by simp [hs]), if_neg (by simp [htt]), hp]

/-! ### Claim theorems -/

/-- C1 counterexample: after A plays 98 and then 99 onto the same pile up1 of
the reachable playing room `t1`, the buried 98 is recorded nowhere, so the
union of deck, hands, and pile tops minus sentinels is no longer the exact
multiset 2..99, refuting the claimed equality invariant. -/
theorem c1_counterexample :
    Reachable t2 ∧ t2.status = Status.playing ∧ cardsUnion t2 ≠ fullDeckM :=
  ⟨reach_t2, by decide, by decide⟩

/-- C1 (amended): for every reachable room state whose status is not win or
lose, the multiset union of the deck, all seated hands, and the pile tops
minus the sentinel seed values 1,1,100,100 is a sub-multiset of 2..99 (each
value at most once); every event handler preserves this inclusion, but a play
that buries a previous non-sentinel pile top shrinks the union strictly, so
the claimed exact equality does not hold. -/
theorem c1_union_included (g : Game) (hr : Reachable g)
    (hst : g.status ≠ Status.win ∧ g.status ≠ Status.lose) :
    cardsUnion g ≤ fullDeckM :=
  (reachable_wf hr).unionLe

theorem c1_witness :
    Reachable s2 ∧ (s2.status ≠ Status.win ∧ s2.status ≠ Status.lose) ∧
      cardsUnion s2 ≤ fullDeckM :=
  ⟨reach_s2, ⟨by decide, by decide⟩,
    c1_union_included s2 reach_s2 ⟨by decide, by decide⟩⟩

/-- C2 counterexample: in the reachable playing room `s4` the turn holder A
disconnects while B is still connected; the disconnect handler leaves
turnToken at A even though the next seated connected token is B, refuting the
claim that the turn advances on disconnect. -/
theorem c2_counterexample :
    Reachable s4 ∧ s4.status = Status.playing ∧ s4.turnToken = some "A" ∧
    connectedOf s4 "B" = true ∧
    nextConnectedToken (disconnectRun s4 "A") "A" = some "B" ∧
    (disconnectRun s4 "A").turnToken = some "A" ∧
    (some "A" : Option String) ≠ some "B" :=
  ⟨reach_s4, by decide, by decide, by decide, by decide, by decide, by decide⟩

/-- C2 (amended): processing a disconnect only marks the player disconnected
and clears the transport handle; turnToken, status, deck, piles, and every
hand are unchanged — even when the disconnecting player held the turn, the
turn does not advance (rotation past disconnected players happens only inside
a later endTurn via nextConnectedToken). -/
theorem c2_disconnect_keeps_turn (g : Game) (t : String) :
    (disconnectRun g t).turnToken = g.turnToken ∧
    (disconnectRun g t).status = g.status ∧
    (disconnectRun g t).deck = g.deck ∧
    (disconnectRun g t).piles = g.piles ∧
    (∀ u, handOf (disconnectRun g t) u = handOf g u) ∧
    (∀ p, findKeyA g.players t = some p →
      findKeyA (disconnectRun g t).players t =
        some { p with connected := false, socketId := none }) := by
  unfold disconnectRun
  cases hf : findKeyA g.players t with
  | none =>
    exact ⟨rfl, rfl, rfl, rfl, fun u => rfl, fun p hp => Option.noConfusion hp⟩
  | some p =>
    refine ⟨rfl, rfl, rfl, rfl, ?_, ?_⟩
    · intro u
      by_cases hu : u = t
      · subst hu
        show ((findKeyA (setKeyA g.players u
            { p with connected := false, socketId := none }) u).map Player.hand).getD [] =
          handOf g u
        rw [findKeyA_setKeyA_self]
        show p.hand = handOf g u
        rw [handOf, hf]
        rfl
      · show ((findKeyA (setKeyA g.players t
            { p with connected := false, socketId := none }) u).map Player.hand).getD [] =
          handOf g u
        rw [findKeyA_setKeyA_ne _ hu]
        rfl
    · intro p2 hp2
      injection hp2 with hp2
      subst hp2
      exact findKeyA_setKeyA_self t _ g.players

theorem c2_witness :
    (disconnectRun s4 "B").turnToken = s4.turnToken ∧
    handOf (disconnectRun s4 "B") "B" = handOf s4 "B" ∧
    findKeyA (disconnectRun s4 "B").players "B" =
      some ⟨"Bo", [20, 21, 22, 23, 24, 25], false, none⟩ :=
  ⟨(c2_disconnect_keeps_turn s4 "B").1,
    (c2_disconnect_keeps_turn s4 "B").2.2.2.2.1 "B",
    (c2_disconnect_keeps_turn s4 "B").2.2.2.2.2
      ⟨"Bo", [20, 21, 22, 23, 24, 25], true, some "x2"⟩ (by decide)⟩

/-- C3: for a seated turn holder of a playing room, endTurn is rejected with
MUST_PLAY_MORE (leaving room and stats untouched) exactly when the cards
played this turn are below minPlaysThisTurn (2 with a nonempty deck, 1 once
it is empty) and the holder still has a legal move; with no legal move the
request never errors (pass rule). -/
theorem c3_endTurn_must_play (g : Game) (m : StatsMap) (t : String) (p : Player)
    (ht : t ≠ "") (hs : g.status = Status.playing) (htt : g.turnToken = some t)
    (hp : findKeyA g.players t = some p) :
    (endTurnRun g m t = (g, m, some (Err.mustPlayMore (minPlaysThisTurn g))) ↔
      (playedOf g t < minPlaysThisTurn g ∧ anyLegalMoveForToken g t = true)) ∧
    minPlaysThisTurn g = (if g.deck.length = 0 then 1 else 2) ∧
    (anyLegalMoveForToken g t = false → (endTurnRun g m t).2.2 = none) := by
  have hnf := endTurnRun_nf g m t p ht hs htt hp
  refine ⟨⟨?_, ?_⟩, rfl, ?_⟩
  · intro heq
    by_contra hcond
    rw [hnf, if_neg hcond] at heq
    have h3 := congrArg (fun x => x.2.2) heq
    simp at h3
  · intro hcond
    rw [hnf, if_pos hcond]
  · intro hno
    rw [hnf, if_neg (by simp [hno])]

theorem c3_witness :
    endTurnRun s4 m0 "A" = (s4, m0, some (Err.mustPlayMore 2)) :=
  (c3_endTurn_must_play s4 m0 "A" ⟨"Al", [99, 98, 2, 3, 50, 51], true, some "x1"⟩
    (by decide) (by decide) (by decide) (by decide)).1.mpr ⟨by decide, by decide⟩

/-- C5: outcome evaluation is latched and idempotent — on any reachable room
already in status win or lose, checkWinLose returns the room and the stats
store completely unchanged. -/
theorem c5_outcome_latched (g : Game) (m : StatsMap) (hr : Reachable g)
    (hterm : g.status = Status.win ∨ g.status = Status.lose) :
    checkWinLose g m = (g, m) := by
  have h := reachable_wf hr
  rcases hterm with hw | hl
  · have hcond := h.winEmpty hw
    unfold checkWinLose
    rw [if_pos hcond, if_neg (by simp [hw])]
  · have hcond := h.loseNonempty hl
    unfold checkWinLose
    rw [if_neg (by simp [hcond])]
    by_cases hany : ((!handsEmptyB g || !g.deck.isEmpty) && !anyLegalMoveForAnyone g) = true
    · rw [if_pos hany, if_neg (by simp [hl])]
    · rw [if_neg hany]

theorem c5_witness : s9.status = Status.lose ∧ checkWinLose s9 m0 = (s9, m0) :=
  ⟨by decide, c5_outcome_latched s9 m0 reach_s9 (Or.inr (by decide))⟩

/-- C6: when outcome evaluation first latches win (resp. lose), every token
seated at that instant gets games+1 and wins+1 (resp. losses+1) exactly once
while absent tokens are untouched, and no later play or endTurn event on the
terminal room changes the stats store again. -/
theorem c6_stats_once (g : Game) (m : StatsMap) (hnd : (tokensOf g).Nodup) :
    (g.status ≠ Status.win → (g.deck.isEmpty && handsEmptyB g) = true →
      (∀ t, t ∈ tokensOf g → (checkWinLose g m).2 t = winBump (m t)) ∧
      (∀ t, t ∉ tokensOf g → (checkWinLose g m).2 t = m t)) ∧
    (g.status ≠ Status.lose → (g.deck.isEmpty && handsEmptyB g) = false →
      anyLegalMoveForAnyone g = false →
      (∀ t, t ∈ tokensOf g → (checkWinLose g m).2 t = loseBump (m t)) ∧
      (∀ t, t ∉ tokensOf g → (checkWinLose g m).2 t = m t)) ∧
    ((g.status = Status.win ∨ g.status = Status.lose) →
      (∀ t c pstr, (playRun g m t c pstr).2.1 = m) ∧
      (∀ t, (endTurnRun g m t).2.1 = m)) := by
  refine ⟨?_, ?_, ?_⟩
  · intro hnw hcond
    rw [checkWinLose_snd_win g m hcond hnw]
    constructor
    · intro t htm
      rw [bumpAll_apply winBump (tokensOf g) hnd m t, if_pos htm]
    · intro t htm
      rw [bumpAll_apply winBump (tokensOf g) hnd m t, if_neg htm]
  · intro hnl hcond hany
    rw [checkWinLose_snd_lose g m hcond hany hnl]
    constructor
    · intro t htm
      rw [bumpAll_apply loseBump (tokensOf g) hnd m t, if_pos htm]
    · intro t htm
      rw [bumpAll_apply loseBump (tokensOf g) hnd m t, if_neg htm]
  · intro hterm
    have hnp : g.status ≠ Status.playing := by
      rcases hterm with h | h <;> rw [h] <;> exact fun hx => Status.noConfusion hx
    exact ⟨fun t c pstr => playRun_stats_frozen g m t c pstr hnp,
      fun t => endTurnRun_stats_frozen g m t hnp⟩

theorem c6_witness :
    (checkWinLose gW m0).2 "A" = ⟨1, 0, 1⟩ ∧
    (checkWinLose gW m0).2 "B" = ⟨1, 0, 1⟩ ∧
    (checkWinLose gW m0).2 "C" = ⟨0, 0, 0⟩ ∧
    (playRun s9 m0 "A" 50 "up1").2.1 = m0 :=
  have h := c6_stats_once gW m0 (by decide)
  have h2 := h.2.1 (by decide) (by decide) (by decide)
  have h9 := c6_stats_once s9 m0 (by decide)
  ⟨h2.1 "A" (by decide), h2.1 "B" (by decide), h2.2 "C" (by decide),
    (h9.2.2 (Or.inr (by decide))).1 "A" 50 "up1"⟩

/-- C7 counterexample: the room "R1" fresh from create is waiting with
maxPlayers 2; a second create for the same code with maxPlayers 3 overwrites
maxPlayers, so create on an existing room is not a no-op. -/
theorem c7_counterexample :
    Reachable s0 ∧ s0.status = Status.waiting ∧
    createOnExisting s0 (clampMP 3) ≠ s0 :=
  ⟨reach_s0, by decide, by decide⟩

/-- C7 (amended): create on an existing room is a no-op except that, while
the room is still waiting, the stored maxPlayers is overwritten with the
(clamped) supplied value; every other field is unchanged in both cases. -/
theorem c7_create_existing (g : Game) (mp : Nat) :
    (g.status = Status.waiting →
      (createOnExisting g mp).maxPlayers = mp ∧
      (createOnExisting g mp).room = g.room ∧
      (createOnExisting g mp).status = g.status ∧
      (createOnExisting g mp).createdAt = g.createdAt ∧
      (createOnExisting g mp).deck = g.deck ∧
      (createOnExisting g mp).piles = g.piles ∧
      (createOnExisting g mp).players = g.players ∧
      (createOnExisting g mp).turnToken = g.turnToken ∧
      (createOnExisting g mp).playedThisTurn = g.playedThisTurn ∧
      (createOnExisting g mp).pilePings = g.pilePings ∧
      (createOnExisting g mp).start = g.start) ∧
    (g.status ≠ Status.waiting → createOnExisting g mp = g) := by
  constructor
  · intro hw
    unfold createOnExisting
    rw [if_pos hw]
    exact ⟨rfl, rfl, rfl, rfl, rfl, rfl, rfl, rfl, rfl, rfl, rfl⟩
  · intro hnw
    unfold createOnExisting
    rw [if_neg hnw]

theorem c7_witness :
    (createOnExisting s0 3).maxPlayers = 3 ∧
    (createOnExisting s0 3).players = s0.players ∧
    createOnExisting s4 3 = s4 :=
  ⟨((c7_create_existing s0 3).1 (by decide)).1,
    ((c7_create_existing s0 3).1 (by decide)).2.2.2.2.2.2.1,
    (c7_create_existing s4 3).2 (by decide)⟩

/-- C10 (implicit): in every reachable room state each card value occurs at
most once across the deck and all seated hands — the deck-plus-hands multiset
has no duplicates, and every operation (deal, play, endTurn refill) preserves
this distinctness because reachability is closed under the handlers. -/
theorem c10_no_duplicate_cards (g : Game) (hr : Reachable g) :
    (deckHandsM g).Nodup := by
  have h := (reachable_wf hr).unionLe
  have hsub : deckHandsM g ≤ cardsUnion g := le_add_right (le_refl (deckHandsM g))
  exact Multiset.nodup_of_le (hsub.trans h) fullDeck_nodup

theorem c10_witness : (deckHandsM s6).Nodup :=
  c10_no_duplicate_cards s6 reach_s6

/-- `startChoosingIfReady` is the identity unless the room is waiting at
capacity. -/
theorem startChoosing_id_of_not_ready (g : Game) (sh : List Int)
    (hcond : ¬ (g.status = Status.waiting ∧ g.maxPlayers ≤ (tokensOf g).length)) :
    startChoosingIfReady g sh = g := by
  rcases startChoosing_cases g sh with hc | ⟨hw, hsz, _⟩
  · exact hc
  · exact absurd ⟨hw, hsz⟩ hcond

/-- C4 counterexample: room "S" was created for 4, seated A, B, C while
waiting, then a create with maxPlayers 2 shrank the capacity; the known token
A rejoining this waiting-but-over-capacity room succeeds, yet triggers the
deal, which replaces A's hand — so a reconnect does not always keep the
hand. -/
theorem c4_counterexample :
    Reachable u4 ∧ (findKeyA u4.players "A").isSome = true ∧
    u4.maxPlayers ≤ (tokensOf u4).length ∧
    u5.2 = none ∧ handOf u5.1 "A" ≠ handOf u4 "A" :=
  ⟨reach_u4, by decide, by decide, by decide, by decide⟩

/-- C4 (amended): a join with a known token always succeeds as a reconnect
(never FULL, marks connected) and keeps the hand unless that very join fires
the waiting-room deal because seated players already reach maxPlayers, in
which case all hands are redealt; a join with an unknown token into a full
room is rejected with FULL and mutates nothing. -/
theorem c4_join_reconnect (g : Game) (t n sid : String) (sh : List Int) (ht : t ≠ "") :
    (∀ p, findKeyA g.players t = some p →
      (joinRun g t n sid sh).2 = none ∧
      connectedOf (joinRun g t n sid sh).1 t = true ∧
      (¬ (g.status = Status.waiting ∧ g.maxPlayers ≤ (tokensOf g).length) →
        handOf (joinRun g t n sid sh).1 t = p.hand)) ∧
    ((findKeyA g.players t = none ∧ g.maxPlayers ≤ (tokensOf g).length) →
      joinRun g t n sid sh = (g, some Err.full)) := by
  constructor
  · intro p hf
    have hnf : joinRun g t n sid sh =
        (startChoosingIfReady { g with players := (setKeyA g.players t
          { p with
              name := (if n = "" then p.name else n)
              connected := true
              socketId := some sid }) } sh, none) := by
      unfold joinRun
      dsimp only
      rw [if_neg ht, if_neg (by simp [hf]), hf]
    refine ⟨?_, ?_, ?_⟩
    · rw [hnf]
    · rw [hnf]
      show connectedOf (startChoosingIfReady _ sh) t = true
      rw [connectedOf_startChoosing]
      show ((findKeyA (setKeyA g.players t
        { p with
            name := (if n = "" then p.name else n)
            connected := true
            socketId := some sid }) t).map Player.connected).getD false = true
      rw [findKeyA_setKeyA_self]
      rfl
    · intro hcond
      rw [hnf]
      have hid := startChoosing_id_of_not_ready
        { g with players := (setKeyA g.players t
          { p with
              name := (if n = "" then p.name else n)
              connected := true
              socketId := some sid }) } sh ?hc
      case hc =>
        intro hx
        apply hcond
        refine ⟨hx.1, ?_⟩
        have hlen : (tokensOf { g with players := (setKeyA g.players t
            { p with
                name := (if n = "" then p.name else n)
                connected := true
                socketId := some sid }) }).length = (tokensOf g).length := by
          show ((setKeyA g.players t _).map Prod.fst).length = _
          rw [keys_setKeyA_of_some _ hf]
          rfl
        rw [← hlen]
        exact hx.2
      rw [hid]
      show ((findKeyA (setKeyA g.players t
        { p with
            name := (if n = "" then p.name else n)
            connected := true
            socketId := some sid }) t).map Player.hand).getD [] = p.hand
      rw [findKeyA_setKeyA_self]
      rfl
  · intro hx
    unfold joinRun
    dsimp only
    rw [if_neg ht, if_pos ⟨by simp [hx.1], hx.2⟩]

theorem c4_witness :
    (joinRun s4 "A" "" "z9" stdDeckInt).2 = none ∧
    connectedOf (joinRun s4 "A" "" "z9" stdDeckInt).1 "A" = true ∧
    handOf (joinRun s4 "A" "" "z9" stdDeckInt).1 "A" = [99, 98, 2, 3, 50, 51] ∧
    joinRun s4 "Z" "" "z8" stdDeckInt = (s4, some Err.full) :=
  have h := (c4_join_reconnect s4 "A" "" "z9" stdDeckInt (by decide)).1
    ⟨"Al", [99, 98, 2, 3, 50, 51], true, some "x1"⟩ (by decide)
  ⟨h.1, h.2.1, h.2.2 (by decide),
    (c4_join_reconnect s4 "Z" "" "z8" stdDeckInt (by decide)).2 ⟨by decide, by decide⟩⟩

/-- C8 counterexample: the reachable room `u4` (created for 4, three joins,
then a create that shrank maxPlayers to 2 while waiting) violates
players.size ≤ maxPlayers. -/
theorem c8_counterexample :
    Reachable u4 ∧ ¬ (u4.players.length ≤ u4.maxPlayers) :=
  ⟨reach_u4, by decide⟩

theorem decideStarter_size (g : Game) (r : Nat) (hb : g.players.length ≤ g.maxPlayers) :
    (decideStarterIfAllMade g r).players.length ≤ (decideStarterIfAllMade g r).maxPlayers := by
  rcases decideStarter_cases g r with hc | ⟨_, _, hpl, _, _, hmp⟩
  · rw [hc]
    exact hb
  · rw [hpl, hmp]
    exact hb

/-- C8 (amended): every event handler except create preserves players.size ≤
maxPlayers — join refuses an unknown token once the room is full — but create
on an existing waiting room overwrites maxPlayers without checking the seated
count, so the bound is not an invariant of all reachable states. -/
theorem c8_bound_preserved (g : Game) (hb : g.players.length ≤ g.maxPlayers) :
    (∀ t n sid sh, (joinRun g t n sid sh).1.players.length ≤
      (joinRun g t n sid sh).1.maxPlayers) ∧
    (∀ t pf r, (startPrefRun g t pf r).players.length ≤
      (startPrefRun g t pf r).maxPlayers) ∧
    (∀ m t c pstr, (playRun g m t c pstr).1.players.length ≤
      (playRun g m t c pstr).1.maxPlayers) ∧
    (∀ m t, (endTurnRun g m t).1.players.length ≤ (endTurnRun g m t).1.maxPlayers) ∧
    (∀ sh, (rematchRun g sh).players.length ≤ (rematchRun g sh).maxPlayers) ∧
    (∀ pstr ty ts, (pilePingRun g pstr ty ts).players.length ≤
      (pilePingRun g pstr ty ts).maxPlayers) ∧
    (∀ t, (disconnectRun g t).players.length ≤ (disconnectRun g t).maxPlayers) := by
  refine ⟨fun t n sid sh => joinRun_size g t n sid sh hb, ?_, ?_, ?_, ?_, ?_, ?_⟩
  · intro t pf r
    rcases startPrefRun_cases g t pf r with hc | ⟨_, hc⟩
    · rw [hc]
      exact hb
    · rw [hc]
      exact decideStarter_size _ r hb
  · intro m t c pstr
    rcases playRun_fst_cases g m t c pstr with hc | ⟨p, pid, _, hf, _, hc⟩
    · rw [hc]
      exact hb
    · rw [hc]
      apply checkWinLose_size
      show (setKeyA g.players t _).length ≤ g.maxPlayers
      rw [length_setKeyA_of_some _ hf]
      exact hb
  · intro m t
    rcases endTurnRun_fst_cases g m t with hc | ⟨p, _, hf, hc⟩
    · rw [hc]
      exact hb
    · rw [hc]
      apply checkWinLose_size
      show (setKeyA g.players t _).length ≤ g.maxPlayers
      rw [length_setKeyA_of_some _ hf]
      exact hb
  · intro sh
    unfold rematchRun
    dsimp only
    apply startChoosing_size
    show (clearHands g.players).length ≤ g.maxPlayers
    rw [clearHands, List.length_map]
    exact hb
  · intro pstr ty ts
    unfold pilePingRun
    split
    · exact hb
    · split
      · exact hb
      · exact hb
  · intro t
    unfold disconnectRun
    dsimp only
    split
    · exact hb
    next p hf =>
      show (setKeyA g.players t _).length ≤ g.maxPlayers
      rw [length_setKeyA_of_some _ hf]
      exact hb

theorem c8_witness :
    (joinRun s4 "Q" "" "q1" stdDeckInt).1.players.length ≤
      (joinRun s4 "Q" "" "q1" stdDeckInt).1.maxPlayers ∧
    (disconnectRun s4 "A").players.length ≤ (disconnectRun s4 "A").maxPlayers :=
  ⟨(c8_bound_preserved s4 (by decide)).1 "Q" "" "q1" stdDeckInt,
    (c8_bound_preserved s4 (by decide)).2.2.2.2.2.2 "A"⟩

/-- The normal form of `startPrefRun` in a choosing_start room. -/
theorem startPrefRun_nf (g : Game) (t pf : String) (r : Nat)
    (ht : t ≠ "") (hs : g.status = Status.choosing_start) :
    startPrefRun g t pf r = decideStarterIfAllMade
      { g with start := (some ⟨
          setKeyA (g.start.getD ⟨[], []⟩).made t true,
          setKeyA (g.start.getD ⟨[], []⟩).pref t
            (if pf = "can" then StartChoice.can else StartChoice.not)⟩) } r := by
  unfold startPrefRun
  dsimp only
  rw [if_neg ht, if_neg (by simp [hs])]

/-- C9: recording a start vote overwrites any prior preference of the voter;
the room resolves to playing exactly when every seated token has voted
(counting the new vote), and the chosen starter carries a turnToken drawn
from the can-voters when some exist, otherwise from all seated tokens. -/
theorem c9_start_vote (g : Game) (t pf : String) (r : Nat) (ht : t ≠ "")
    (hs : g.status = Status.choosing_start) (hne : g.players ≠ []) :
    findKeyA (((startPrefRun g t pf r).start.map StartState.pref).getD []) t =
      some (if pf = "can" then StartChoice.can else StartChoice.not) ∧
    ((startPrefRun g t pf r).status = Status.playing ↔
      votedAllB (startPrefRun g t pf r) = true) ∧
    ((startPrefRun g t pf r).status = Status.playing →
      ∃ s, (startPrefRun g t pf r).turnToken = some s ∧
        (0 < (canVoters (startPrefRun g t pf r)).length →
          s ∈ canVoters (startPrefRun g t pf r)) ∧
        ((canVoters (startPrefRun g t pf r)).length = 0 → s ∈ tokensOf g)) := by
  rw [startPrefRun_nf g t pf r ht hs]
  have hstart : (decideStarterIfAllMade
      { g with start := (some ⟨
          setKeyA (g.start.getD ⟨[], []⟩).made t true,
          setKeyA (g.start.getD ⟨[], []⟩).pref t
            (if pf = "can" then StartChoice.can else StartChoice.not)⟩) } r).start =
      (some ⟨
          setKeyA (g.start.getD ⟨[], []⟩).made t true,
          setKeyA (g.start.getD ⟨[], []⟩).pref t
            (if pf = "can" then StartChoice.can else StartChoice.not)⟩ : Option StartState) := by
    rcases decideStarter_cases
      ({ g with start := (some ⟨
          setKeyA (g.start.getD ⟨[], []⟩).made t true,
          setKeyA (g.start.getD ⟨[], []⟩).pref t
            (if pf = "can" then StartChoice.can else StartChoice.not)⟩) }) r with
      hc | ⟨_, _, _, _, hsa, _⟩
    · rw [hc]
    · rw [hsa]
  have hvbeq : votedAllB (decideStarterIfAllMade
      { g with start := (some ⟨
          setKeyA (g.start.getD ⟨[], []⟩).made t true,
          setKeyA (g.start.getD ⟨[], []⟩).pref t
            (if pf = "can" then StartChoice.can else StartChoice.not)⟩) } r) =
      votedAllB { g with start := (some ⟨
          setKeyA (g.start.getD ⟨[], []⟩).made t true,
          setKeyA (g.start.getD ⟨[], []⟩).pref t
            (if pf = "can" then StartChoice.can else StartChoice.not)⟩) } := by
    rcases decideStarter_cases
      ({ g with start := (some ⟨
          setKeyA (g.start.getD ⟨[], []⟩).made t true,
          setKeyA (g.start.getD ⟨[], []⟩).pref t
            (if pf = "can" then StartChoice.can else StartChoice.not)⟩) }) r with
      hc | ⟨_, _, hpl, _, hsa, _⟩
    · rw [hc]
    · unfold votedAllB tokensOf
      rw [hpl, hsa]
  have hcveq : canVoters (decideStarterIfAllMade
      { g with start := (some ⟨
          setKeyA (g.start.getD ⟨[], []⟩).made t true,
          setKeyA (g.start.getD ⟨[], []⟩).pref t
            (if pf = "can" then StartChoice.can else StartChoice.not)⟩) } r) =
      canVoters { g with start := (some ⟨
          setKeyA (g.start.getD ⟨[], []⟩).made t true,
          setKeyA (g.start.getD ⟨[], []⟩).pref t
            (if pf = "can" then StartChoice.can else StartChoice.not)⟩) } := by
    rcases decideStarter_cases
      ({ g with start := (some ⟨
          setKeyA (g.start.getD ⟨[], []⟩).made t true,
          setKeyA (g.start.getD ⟨[], []⟩).pref t
            (if pf = "can" then StartChoice.can else StartChoice.not)⟩) }) r with
      hc | ⟨_, _, hpl, _, hsa, _⟩
    · rw [hc]
    · unfold canVoters tokensOf
      rw [hpl, hsa]
  refine ⟨?_, ?_, ?_⟩
  · rw [hstart]
    show findKeyA (setKeyA (g.start.getD ⟨[], []⟩).pref t
      (if pf = "can" then StartChoice.can else StartChoice.not)) t = _
    exact findKeyA_setKeyA_self t _ _
  · by_cases hv : votedAllB { g with start := (some ⟨
        setKeyA (g.start.getD ⟨[], []⟩).made t true,
        setKeyA (g.start.getD ⟨[], []⟩).pref t
          (if pf = "can" then StartChoice.can else StartChoice.not)⟩) } = true
    · have hres := decideStarter_resolved
        ({ g with start := (some ⟨
            setKeyA (g.start.getD ⟨[], []⟩).made t true,
            setKeyA (g.start.getD ⟨[], []⟩).pref t
              (if pf = "can" then StartChoice.can else StartChoice.not)⟩) }) r hs hv hne
      exact ⟨fun _ => by rw [hvbeq]; exact hv, fun _ => hres.1⟩
    · have hv2 : votedAllB { g with start := (some ⟨
          setKeyA (g.start.getD ⟨[], []⟩).made t true,
          setKeyA (g.start.getD ⟨[], []⟩).pref t
            (if pf = "can" then StartChoice.can else StartChoice.not)⟩) } = false := by
        simpa using hv
      have hid := decideStarter_id
        ({ g with start := (some ⟨
            setKeyA (g.start.getD ⟨[], []⟩).made t true,
            setKeyA (g.start.getD ⟨[], []⟩).pref t
              (if pf = "can" then StartChoice.can else StartChoice.not)⟩) }) r hs hv2
      rw [hvbeq, hid]
      constructor
      · intro h
        exact absurd (hs.symm.trans h) (fun hx => Status.noConfusion hx)
      · intro h
        rw [hv2] at h
        cases h
  · intro hpl
    by_cases hv : votedAllB { g with start := (some ⟨
        setKeyA (g.start.getD ⟨[], []⟩).made t true,
        setKeyA (g.start.getD ⟨[], []⟩).pref t
          (if pf = "can" then StartChoice.can else StartChoice.not)⟩) } = true
    · have hres := decideStarter_resolved
        ({ g with start := (some ⟨
            setKeyA (g.start.getD ⟨[], []⟩).made t true,
            setKeyA (g.start.getD ⟨[], []⟩).pref t
              (if pf = "can" then StartChoice.can else StartChoice.not)⟩) }) r hs hv hne
      obtain ⟨s, hts, hcan, htok⟩ := hres.2
      refine ⟨s, hts, ?_, ?_⟩
      · rw [hcveq]
        exact hcan
      · rw [hcveq]
        exact htok
    · have hv2 : votedAllB { g with start := (some ⟨
          setKeyA (g.start.getD ⟨[], []⟩).made t true,
          setKeyA (g.start.getD ⟨[], []⟩).pref t
            (if pf = "can" then StartChoice.can else StartChoice.not)⟩) } = false := by
        simpa using hv
      have hid := decideStarter_id
        ({ g with start := (some ⟨
            setKeyA (g.start.getD ⟨[], []⟩).made t true,
            setKeyA (g.start.getD ⟨[], []⟩).pref t
              (if pf = "can" then StartChoice.can else StartChoice.not)⟩) }) r hs hv2
      rw [hid] at hpl
      exact absurd (hs.symm.trans hpl) (fun hx => Status.noConfusion hx)

theorem c9_witness :
    findKeyA ((s4.start.map StartState.pref).getD []) "B" = some StartChoice.not ∧
    (s4.status = Status.playing ↔ votedAllB s4 = true) ∧
    s4.status = Status.playing ∧ s4.turnToken = some "A" ∧ canVoters s4 = ["A"] :=
  have h := c9_start_vote s3 "B" "not" 0 (by decide) (by decide) (by decide)
  ⟨h.1, h.2.1, (h.2.1).mpr (by decide), by decide, by decide⟩

end TheGame
